import Mathlib

/-!
# Verification of the meeting-room booking system's availability engine

Shallow embedding of the core logic of `src/app.py` (a Flask room-booking
application backed by a relational store).  Pure helpers are translated as
Lean functions; the database-touching request handlers are translated as
explicit state-passing functions over an in-memory list of booking rows,
mirroring the SQL statements they issue.

Conventions used throughout:

* Python `"HH:MM"` strings are kept as Lean `String`s wherever the source
  compares them as strings (the `/book` and admin handlers compare
  `start_time`/`end_time` lexicographically); minute arithmetic
  (`t2min`/`min2t`/`overlaps` and the `/api/available_times` handler)
  is carried out on `Int`, as the source converts to minute integers
  before arithmetic.
* Python string primitives (`split(":")`, `<`/`<=`, `strip()`) are
  re-implemented by structural recursion over `String.data` so that every
  definition evaluates inside the kernel; they agree with Python's
  code-point-lexicographic semantics.
* A missing HTTP form field (`request.form.get` returning `None`) is
  `Option.none`; a present field is `some s`.  Python truthiness of a
  field (`if not room`) means `none` or the empty string.
* Python exceptions that abort a handler before `conn.commit()` (so the
  transaction is rolled back and no write survives) are modelled as
  explicit verdicts (`crash`, `typeError`) that leave the state unchanged.
-/

/-- Lexicographic order on code points: Python's `<` on strings,
on the character lists. -/
def charsLt : List Char → List Char → Bool
  | [], [] => false
  | [], _ :: _ => true
  | _ :: _, [] => false
  | a :: as, b :: bs =>
    if a.toNat < b.toNat then true
    else if b.toNat < a.toNat then false
    else charsLt as bs

/-- Python `s < t` on strings. -/
def pyStrLt (s t : String) : Bool := charsLt s.data t.data

/-- Python `s <= t` on strings (total order, so `s <= t ↔ ¬ t < s`). -/
def pyStrLe (s t : String) : Bool := !pyStrLt t s

/-- Python `s.split(":")`: splits on every colon; `"".split(":") == [""]`. -/
def splitColon : List Char → List (List Char)
  | [] => [[]]
  | c :: rest =>
    let r := splitColon rest
    if c = ':' then [] :: r
    else
      match r with
      | g :: gs => (c :: g) :: gs
      | [] => [[c]]

/-- Python `s.strip()`: drop whitespace from both ends. -/
def pyStrip (s : String) : String :=
  (((s.data.dropWhile Char.isWhitespace).reverse.dropWhile
      Char.isWhitespace).reverse).asString

/-- Python `int(s)` restricted to what the app can receive: optional
surrounding whitespace, an optional sign, then decimal digits.  Returns
`none` where Python raises `ValueError`.  (Python additionally allows
underscore digit separators, never produced by this app's forms.) -/
def pyInt (s : String) : Option Int :=
  let digitsVal : List Char → Option Nat := fun cs =>
    if cs ≠ [] ∧ cs.all Char.isDigit then
      some (cs.foldl (fun a c => 10 * a + (c.toNat - 48)) 0)
    else none
  match (pyStrip s).data with
  | '-' :: rest => (digitsVal rest).map (fun n => -(n : Int))
  | '+' :: rest => (digitsVal rest).map (fun n => (n : Int))
  | cs => (digitsVal cs).map (fun n => (n : Int))

/-- `t2min` from `src/app.py`:
`h, m = map(int, tstr.split(":")); return h * 60 + m`.
`none` models the `ValueError`/unpacking `ValueError` Python raises when a
field is non-numeric or the split does not produce exactly two fields. -/
def t2min (tstr : String) : Option Int :=
  match splitColon tstr.data with
  | [hs, ms] =>
    match pyInt hs.asString, pyInt ms.asString with
    | some h, some m => some (h * 60 + m)
    | _, _ => none
  | _ => none

/-- Zero-padding `f"{n:02d}"` for a natural number. -/
def pad2 (n : Nat) : String :=
  if n < 10 then "0" ++ toString n else toString n

/-- `min2t` from `src/app.py`: `f"{mn // 60:02d}:{mn % 60:02d}"`.
Python `//`/`%` are floor division / nonnegative remainder for a positive
divisor, i.e. `Int.ediv`/`Int.emod`. -/
def min2t (mn : Int) : String :=
  pad2 (mn.ediv 60).toNat ++ ":" ++ pad2 (mn.emod 60).toNat

/-- Python `range(a, b, 30)` over integers: the values `a + 30*k` that are
`< b`, in increasing order. -/
def pyRange30 (a b : Int) : List Int :=
  (List.range (((b - a).toNat + 29) / 30)).map (fun k : Nat => a + 30 * (k : Int))

/-- `overlaps` from `src/app.py`:
`a_start < b_end and b_start < a_end` (half-open interval intersection). -/
def overlaps (a_start a_end b_start b_end : Int) : Bool :=
  decide (a_start < b_end) && decide (b_start < a_end)

/-- `generate_time_options` from `src/app.py`: the 30-minute validation grid
`09:00 .. 17:00`, both endpoints included (17 strings).  The source builds it
by `datetime` stepping; the values are the minutes `540, 570, …, 1020`
rendered as `"HH:MM"`. -/
def ALL_TIMES : List String :=
  (pyRange30 540 1021).map min2t

/-- `generate_halfhour_slots("09:00", "17:00")` from `src/app.py`, kept in
minutes: `range(540, 1020, 30)`, the 16 legal start slots. -/
def startsAllM : List Int :=
  pyRange30 540 1020

/-! ## Data model: rows of the `bookings` and `bookings_history` tables -/

/-- A row of the `bookings` table (`init_db` in `src/app.py`). -/
structure Booking where
  id : Nat
  user_name : String
  room : String
  date : String
  start_time : String
  end_time : String
  people : Option Int
  remark : String
  created_at : String
deriving DecidableEq, Repr

/-- A row of the `bookings_history` table: a `Booking` plus `archived_at`. -/
structure HistRecord where
  id : Nat
  user_name : String
  room : String
  date : String
  start_time : String
  end_time : String
  people : Option Int
  remark : String
  created_at : String
  archived_at : String
deriving DecidableEq, Repr

/-- The INSERT of `archive_past_bookings`: the history row carries every
field of the booking unchanged, plus the archive stamp. -/
def toHist (b : Booking) (stamp : String) : HistRecord :=
  ⟨b.id, b.user_name, b.room, b.date, b.start_time, b.end_time,
   b.people, b.remark, b.created_at, stamp⟩

/-! ## Form handling -/

/-- The POST form as the handlers read it: `request.form.get(k)` is `none`
when the field is absent, `some s` otherwise. -/
structure Form where
  user_name : Option String
  room : Option String
  date : Option String
  start_time : Option String
  end_time : Option String
  people : Option String
  remark : Option String
deriving Repr

/-- Python falsiness of a form field: absent or the empty string. -/
def falsyOpt : Option String → Bool
  | none => true
  | some s => s == ""

/-- `(request.form.get(k) or "").strip()`. -/
def stripField (o : Option String) : String := pyStrip (o.getD "")

/-- The missing-required-field test of `/book` and `/admin/add`:
`not user_name or not room or not date or not start_time or not end_time`
(with `user_name` already stripped). -/
def requiredMissing (f : Form) : Bool :=
  stripField f.user_name == "" || falsyOpt f.room || falsyOpt f.date ||
    falsyOpt f.start_time || falsyOpt f.end_time

/-- The grid test of `/book`:
`start_time not in ALLOWED_SET or end_time not in ALLOWED_SET`. -/
def offGrid (f : Form) : Bool :=
  !(ALL_TIMES.contains (f.start_time.getD "")) ||
    !(ALL_TIMES.contains (f.end_time.getD ""))

/-- The conflict scan shared by `/book` and `/admin/add`: over the rows
`SELECT … WHERE date = %s AND room = %s`, test
`start_time < r["end_time"] and end_time > r["start_time"]`
(Python string comparison on "HH:MM" values). -/
def conflictAny (f : Form) (bookings : List Booking) : Bool :=
  (bookings.filter (fun b => f.date == some b.date && f.room == some b.room)).any
    (fun r => pyStrLt (f.start_time.getD "") r.end_time &&
      pyStrLt r.start_time (f.end_time.getD ""))

/-- `int(people) if people else None`, as an `Option`; `none` also covers the
falsy-field case.  When the field is non-empty but non-numeric Python raises
instead — that case is `peopleCrash` below and never reaches this value. -/
def peopleVal (f : Form) : Option Int :=
  match f.people with
  | none => none
  | some s => if s == "" then none else pyInt s

/-- `int(people)` raises `ValueError`: the field is truthy but non-numeric.
The exception aborts the handler before `conn.commit()`, so nothing is
written. -/
def peopleCrash (f : Form) : Bool :=
  match f.people with
  | none => false
  | some s => !(s == "") && (pyInt s).isNone

/-- The row INSERTed by `/book` and `/admin/add` on success.  `nid` is the
SERIAL id assigned by the store, `ts` the `created_at` stamp. -/
def mkBooking (f : Form) (nid : Nat) (ts : String) : Booking :=
  ⟨nid, stripField f.user_name, f.room.getD "", f.date.getD "",
   f.start_time.getD "", f.end_time.getD "", peopleVal f,
   stripField f.remark, ts⟩

/-- Outcome of a booking-mutating handler.  `crash` stands for an uncaught
Python exception (e.g. `int` on a non-numeric `people`, or a NOT NULL
violation) that aborts the request before commit; `typeError` for
`admin_edit` comparing a missing time field against `None`. -/
inductive Verdict where
  | missingField
  | invalidTimeGrid
  | endBeforeStart
  | slotConflict
  | notFound
  | typeError
  | crash
  | created
  | updated
deriving DecidableEq, Repr

/-! ## The `/book` handler (`book` in `src/app.py`) -/

/-- The `/book` POST handler: validation checks in source order
(missing field, 30-minute grid, end after start, overlap scan), first
failure returning without touching the table; on success the INSERT
appends the new row. -/
def book (f : Form) (bookings : List Booking) (nid : Nat) (ts : String) :
    Verdict × List Booking :=
  if requiredMissing f then (.missingField, bookings)
  else if offGrid f then (.invalidTimeGrid, bookings)
  else if pyStrLe (f.end_time.getD "") (f.start_time.getD "") then
    (.endBeforeStart, bookings)
  else if conflictAny f bookings then (.slotConflict, bookings)
  else if peopleCrash f then (.crash, bookings)
  else (.created, bookings ++ [mkBooking f nid ts])

/-! ## The admin handlers (`admin_add`, `admin_edit` in `src/app.py`) -/

/-- The `/admin/add` POST handler: same checks as `/book` in the same
order, except that there is no grid (`ALLOWED_SET`) check. -/
def adminAdd (f : Form) (bookings : List Booking) (nid : Nat) (ts : String) :
    Verdict × List Booking :=
  if requiredMissing f then (.missingField, bookings)
  else if pyStrLe (f.end_time.getD "") (f.start_time.getD "") then
    (.endBeforeStart, bookings)
  else if conflictAny f bookings then (.slotConflict, bookings)
  else if peopleCrash f then (.crash, bookings)
  else (.created, bookings ++ [mkBooking f nid ts])

/-- The UPDATE row written by `admin_edit`: all form fields replace the
old ones; `id` and `created_at` are not in the SET list and are kept. -/
def editBooking (b : Booking) (f : Form) : Booking :=
  { b with
    user_name := stripField f.user_name
    room := f.room.getD ""
    date := f.date.getD ""
    start_time := f.start_time.getD ""
    end_time := f.end_time.getD ""
    people := peopleVal f
    remark := stripField f.remark }

/-- The `/admin/edit/<id>` POST handler.  It fetches the row (404-style
redirect if absent), then — with **no** missing-field and **no** grid
check — compares `end_time <= start_time` (a `TypeError` if either field
is `None`), scans for conflicts over
`SELECT … WHERE date = %s AND room = %s AND id <> %s`
(SQL `= NULL` matches nothing when a form field is absent), and UPDATEs.
A NULL `room`/`date` or non-numeric `people` makes the UPDATE raise
before commit (`crash`). -/
def adminEdit (bid : Nat) (f : Form) (bookings : List Booking) :
    Verdict × List Booking :=
  if !(bookings.any (fun b => b.id == bid)) then (.notFound, bookings)
  else
    match f.start_time, f.end_time with
    | some st, some et =>
      if pyStrLe et st then (.endBeforeStart, bookings)
      else if (bookings.filter (fun b =>
          f.date == some b.date && f.room == some b.room && b.id != bid)).any
          (fun r => pyStrLt st r.end_time && pyStrLt r.start_time et) then
        (.slotConflict, bookings)
      else if peopleCrash f || f.room.isNone || f.date.isNone then
        (.crash, bookings)
      else
        (.updated, bookings.map (fun b => if b.id == bid then editBooking b f else b))
    | _, _ => (.typeError, bookings)

/-! ## The `/api/available_times` handler (`api_available_times`)

The handler converts every time to minute integers (`t2min`) before any
arithmetic and converts back with `min2t` only to build the JSON payload,
so the model carries the slot lists as minute `Int`s and applies `min2t`
at the boundary.  (For every value in play, `t2min (min2t m) = some m`:
the strings are zero-padded and round-trip exactly.) -/

/-- The `starts_available` loop: over `starts_all`, skip (`continue`) every
slot whose 30-minute block overlaps a booked interval, append the rest. -/
def startsLoop (booked : List (Int × Int)) : List Int → List Int
  | [] => []
  | s :: rest =>
    if booked.any (fun b => overlaps s (s + 30) b.1 b.2) then
      startsLoop booked rest
    else s :: startsLoop booked rest

/-- `starts_available` of `api_available_times`. -/
def startsAvailable (booked : List (Int × Int)) : List Int :=
  startsLoop booked startsAllM

/-- The `block_after` fold of `api_available_times`:
`block_after = t2min(day_end)` (= 1020), then for every booked interval
`if b0 >= s_m and b0 < block_after: block_after = b0`. -/
def blockAfterCode (s_m : Int) (booked : List (Int × Int)) : Int :=
  booked.foldl (fun acc b => if s_m ≤ b.1 ∧ b.1 < acc then b.1 else acc) 1020

/-- The `ends_available` loop: walk the candidates in order and `break` at
the first one past `block_after` or overlapping a booked interval. -/
def endsLoop (s_m : Int) (booked : List (Int × Int)) (ba : Int) :
    List Int → List Int
  | [] => []
  | e :: rest =>
    if ba < e then []
    else if booked.any (fun b => overlaps s_m e b.1 b.2) then []
    else e :: endsLoop s_m booked ba rest

/-- `ends_available` of `api_available_times` for a chosen start `s_m`:
candidates `range(s_m + 30, t2min(day_end) + 1, 30)`, early-stopping loop
bounded by `block_after`. -/
def endsAvailable (s_m : Int) (booked : List (Int × Int)) : List Int :=
  endsLoop s_m booked (blockAfterCode s_m booked) (pyRange30 (s_m + 30) 1021)

/-- The JSON payload of `/api/available_times` (`ok`, `starts`, `ends`).
The 400 error response carries `ok = false` and no slot lists. -/
structure ApiAvail where
  ok : Bool
  starts : List String
  ends : List String
deriving DecidableEq, Repr

/-- The `/api/available_times` handler over the query parameters and the
booked intervals for the requested room and date.  Outer `none` models the
uncaught `ValueError` (HTTP 500) when a provided `start` does not parse. -/
def api_available_times (room date start_sel : Option String)
    (booked : List (Int × Int)) : Option ApiAvail :=
  if falsyOpt room || falsyOpt date then some ⟨false, [], []⟩
  else if falsyOpt start_sel then
    some ⟨true, (startsAvailable booked).map min2t, []⟩
  else
    match t2min (start_sel.getD "") with
    | none => none
    | some s_m =>
      some ⟨true, (startsAvailable booked).map min2t,
        (endsAvailable s_m booked).map min2t⟩

/-- The naive `blockAfter` as the claim words it: the minimum start time
among bookings whose start is at or after the selected start; 17:00
(= 1020 minutes) when there is none. -/
def blockAfterSpec (s_m : Int) (booked : List (Int × Int)) : Int :=
  match (booked.map Prod.fst).filter (fun b0 => decide (s_m ≤ b0)) with
  | [] => 1020
  | x :: xs => xs.foldl min x

/-- The naive full filter that the claim asserts the early-stopping loop
computes: every candidate end `e` (30-minute steps above the selected
start, up to 17:00) with `e ≤ blockAfterSpec` and no overlap. -/
def endsNaive (s_m : Int) (booked : List (Int × Int)) : List Int :=
  (pyRange30 (s_m + 30) 1021).filter
    (fun e => decide (e ≤ blockAfterSpec s_m booked) &&
      !(booked.any fun b => overlaps s_m e b.1 b.2))

/-! ## The archival sweep (`archive_past_bookings`)

`combine_datetime` parses `"YYYY-MM-DD HH:MM"` and the result is compared
with `datetime.now()`.  For the fixed-width zero-padded formats the app
stores, `datetime` order coincides with lexicographic order on the
`(date, time)` string pair, which is how the model compares instants.
"now" is the pair and `stamp` the `archived_at` value
(`datetime.now().isoformat()`), both fixed for the run. -/

/-- `combine_datetime(r["date"], r["end_time"]) < now`: the booking's end
instant is strictly in the past. -/
def endsBefore (b : Booking) (now : String × String) : Bool :=
  pyStrLt b.date now.1 || (b.date == now.1 && pyStrLt b.end_time now.2)

/-- One iteration of the `archive_past_bookings` loop body over a snapshot
row `b`: if expired, INSERT into history with `ON CONFLICT (id) DO
NOTHING`, then DELETE from the active table every row with that id. -/
def archiveStep (now : String × String) (stamp : String)
    (acc : List Booking × List HistRecord) (b : Booking) :
    List Booking × List HistRecord :=
  if endsBefore b now then
    (acc.1.filter (fun x => x.id != b.id),
     if acc.2.any (fun h => h.id == b.id) then acc.2
     else acc.2 ++ [toHist b stamp])
  else acc

/-- `archive_past_bookings`: fetch the active snapshot, then run the loop
body over each snapshot row, mutating the two tables. -/
def archive_past_bookings (now : String × String) (stamp : String)
    (st : List Booking × List HistRecord) : List Booking × List HistRecord :=
  st.1.foldl (archiveStep now stamp) st

/-! ## Helper lemmas about the slot lists -/

theorem mem_pyRange30 {a b e : Int} (h : e ∈ pyRange30 a b) :
    a ≤ e ∧ e < b := by
  simp only [pyRange30, List.mem_map, List.mem_range] at h
  obtain ⟨k, hk, rfl⟩ := h
  omega

theorem exists_step_of_mem_pyRange30 {a b e : Int} (h : e ∈ pyRange30 a b) :
    ∃ k : Nat, e = a + 30 * (k : Int) := by
  simp only [pyRange30, List.mem_map, List.mem_range] at h
  obtain ⟨k, _, rfl⟩ := h
  exact ⟨k, rfl⟩

theorem pyRange30_pairwise (a b : Int) : (pyRange30 a b).Pairwise (· ≤ ·) := by
  unfold pyRange30
  rw [List.pairwise_map]
  refine (List.pairwise_lt_range _).imp ?_
  intro x y h
  show a + 30 * (x : Int) ≤ a + 30 * (y : Int)
  omega

theorem takeWhile_eq_filter_of_antitone (p : Int → Bool)
    (ha : ∀ x y : Int, x ≤ y → p y = true → p x = true) :
    ∀ l : List Int, l.Pairwise (· ≤ ·) → l.takeWhile p = l.filter p := by
  intro l
  induction l with
  | nil => intro _; rfl
  | cons x xs ih =>
    intro hp
    rcases List.pairwise_cons.mp hp with ⟨hx, hxs⟩
    rw [List.takeWhile_cons, List.filter_cons]
    cases hpx : p x with
    | true => simp [ih hxs]
    | false =>
      simp only [Bool.false_eq_true, if_false]
      symm
      rw [List.filter_eq_nil_iff]
      intro y hy hpy
      have : p x = true := ha x y (hx y hy) hpy
      simp [hpx] at this

theorem foldl_min_comm (l : List Int) :
    ∀ a b : Int, l.foldl min (min a b) = min a (l.foldl min b) := by
  induction l with
  | nil => intro a b; rfl
  | cons x xs ih =>
    intro a b
    simp only [List.foldl_cons]
    rw [min_assoc, ih]

/-! ## Claim C1 machinery: the `ends` loop computes the naive filter -/

theorem endsLoop_eq_takeWhile (s_m : Int) (booked : List (Int × Int)) (ba : Int) :
    ∀ l : List Int, endsLoop s_m booked ba l =
      l.takeWhile (fun e => decide (e ≤ ba) &&
        !(booked.any fun b => overlaps s_m e b.1 b.2)) := by
  intro l
  induction l with
  | nil => rfl
  | cons e rest ih =>
    rw [List.takeWhile_cons]
    simp only [endsLoop]
    by_cases h1 : ba < e
    · rw [if_pos h1]
      have hd : decide (e ≤ ba) = false := by simp; omega
      rw [hd]
      simp
    · rw [if_neg h1]
      have hd : decide (e ≤ ba) = true := by simp; omega
      cases h2 : booked.any (fun b => overlaps s_m e b.1 b.2) with
      | true => rw [hd]; simp [h2]
      | false => rw [hd]; simp [h2, ih]

theorem endsPred_antitone (s_m : Int) (booked : List (Int × Int)) (ba : Int) :
    ∀ x y : Int, x ≤ y →
      (decide (y ≤ ba) && !(booked.any fun b => overlaps s_m y b.1 b.2)) = true →
      (decide (x ≤ ba) && !(booked.any fun b => overlaps s_m x b.1 b.2)) = true := by
  intro x y hxy hy
  simp only [Bool.and_eq_true, decide_eq_true_eq, Bool.not_eq_true',
    List.any_eq_false] at hy ⊢
  obtain ⟨h1, h2⟩ := hy
  refine ⟨by omega, ?_⟩
  intro b hb
  have hnb := h2 b hb
  simp only [overlaps, Bool.and_eq_true, decide_eq_true_eq, not_and] at hnb ⊢
  omega

theorem endsAvailable_eq_filter (s_m : Int) (booked : List (Int × Int)) :
    endsAvailable s_m booked = (pyRange30 (s_m + 30) 1021).filter
      (fun e => decide (e ≤ blockAfterCode s_m booked) &&
        !(booked.any fun b => overlaps s_m e b.1 b.2)) := by
  unfold endsAvailable
  rw [endsLoop_eq_takeWhile]
  exact takeWhile_eq_filter_of_antitone _
    (endsPred_antitone s_m booked (blockAfterCode s_m booked)) _
    (pyRange30_pairwise _ _)

theorem blockFold_eq (s_m : Int) :
    ∀ (l : List (Int × Int)) (acc : Int),
      l.foldl (fun acc b => if s_m ≤ b.1 ∧ b.1 < acc then b.1 else acc) acc =
        ((l.map Prod.fst).filter (fun b0 => decide (s_m ≤ b0))).foldl min acc := by
  intro l
  induction l with
  | nil => intro acc; rfl
  | cons b rest ih =>
    intro acc
    simp only [List.foldl_cons, List.map_cons, List.filter_cons]
    by_cases h : s_m ≤ b.1
    · rw [if_pos (show decide (s_m ≤ b.1) = true by simp [h])]
      simp only [List.foldl_cons]
      rw [ih]
      congr 1
      rw [Int.min_def]
      split_ifs <;> omega
    · rw [if_neg (show ¬decide (s_m ≤ b.1) = true by simp [h])]
      rw [ih]
      congr 1
      exact if_neg (fun hc => h hc.1)

theorem blockAfterCode_eq_min (s_m : Int) (booked : List (Int × Int)) :
    blockAfterCode s_m booked = min 1020 (blockAfterSpec s_m booked) := by
  unfold blockAfterCode blockAfterSpec
  rw [blockFold_eq]
  cases h : (booked.map Prod.fst).filter (fun b0 => decide (s_m ≤ b0)) with
  | nil => simp
  | cons x xs =>
    simp only [List.foldl_cons]
    rw [foldl_min_comm]

/-! ## Claim theorems -/

/-- **C1.** For every grid start time and every list of existing booking
intervals, the end slots computed by the early-stopping loop of
`/api/available_times` equal exactly the naive full filter: the candidate
ends strictly above the selected start, in increasing order, that are
`≤ blockAfter` (the minimum booked start at or after the selected start,
17:00 if none) and whose interval from the selected start overlaps no
existing booking; in particular with a single existing booking
12:00–13:00, the ends for start 11:00 are precisely 11:30 and 12:00. -/
theorem c1_available_ends_refinement :
    (∀ (s_m : Int) (booked : List (Int × Int)),
      endsAvailable s_m booked = endsNaive s_m booked) ∧
    (endsAvailable 660 [(720, 780)]).map min2t = ["11:30", "12:00"] := by
  constructor
  · intro s_m booked
    rw [endsAvailable_eq_filter, endsNaive]
    apply List.filter_congr
    intro e he
    have hb := (mem_pyRange30 he).2
    congr 1
    rw [decide_eq_decide, blockAfterCode_eq_min, le_min_iff]
    constructor
    · exact fun h => h.2
    · exact fun h => ⟨by omega, h⟩
  · decide

/-- **C3.** Boundary-touching intervals never conflict: `overlaps`
applied to `[t1, t2)` and `[t2, t3)` is always false; consequently with an
existing booking 10:00–11:00 on the same room and date, candidate
10:30–11:30 is rejected as a slot conflict while candidate 11:00–11:30
(touching the existing end) is accepted by `/book`. -/
theorem c3_touching_intervals :
    (∀ t1 t2 t3 : Int, overlaps t1 t2 t2 t3 = false) ∧
    (book ⟨some "Bob", some "Room A", some "2025-01-10", some "10:30",
        some "11:30", none, none⟩
      [⟨1, "Ann", "Room A", "2025-01-10", "10:00", "11:00", none, "", "t0"⟩]
      2 "t1").1 = .slotConflict ∧
    (book ⟨some "Bob", some "Room A", some "2025-01-10", some "11:00",
        some "11:30", none, none⟩
      [⟨1, "Ann", "Room A", "2025-01-10", "10:00", "11:00", none, "", "t0"⟩]
      2 "t1").1 = .created := by
  refine ⟨?_, by decide, by decide⟩
  intro t1 t2 t3
  simp [overlaps]

theorem startsLoop_eq_filter (booked : List (Int × Int)) :
    ∀ l : List Int, startsLoop booked l =
      l.filter (fun s => !(booked.any fun b => overlaps s (s + 30) b.1 b.2)) := by
  intro l
  induction l with
  | nil => rfl
  | cons s rest ih =>
    simp only [startsLoop, List.filter_cons]
    cases h : booked.any (fun b => overlaps s (s + 30) b.1 b.2) with
    | true => simp [h, ih]
    | false => simp [h, ih]

/-- **C4.** For every list of existing booking intervals, the start slots
of `/api/available_times` are exactly the grid start slots 09:00 … 16:30
(in increasing order) whose 30-minute block overlaps no existing booking;
in particular with no bookings all 16 slots are returned. -/
theorem c4_available_starts :
    (∀ booked : List (Int × Int), startsAvailable booked =
      startsAllM.filter (fun s => !(booked.any fun b => overlaps s (s + 30) b.1 b.2))) ∧
    (startsAvailable []).map min2t =
      ["09:00", "09:30", "10:00", "10:30", "11:00", "11:30", "12:00", "12:30",
       "13:00", "13:30", "14:00", "14:30", "15:00", "15:30", "16:00", "16:30"] := by
  constructor
  · intro booked
    exact startsLoop_eq_filter booked startsAllM
  · decide

/-- **C5.** `/book` runs its checks in the fixed order missing-field,
invalid-time-grid, end-before-start, slot-conflict, and the first failing
check determines the single verdict: a missing required field yields
`missingField` regardless of the times, off-grid times yield
`invalidTimeGrid` regardless of their order, and so on. -/
theorem c5_first_failure_wins :
    ∀ (f : Form) (bookings : List Booking) (nid : Nat) (ts : String),
      (requiredMissing f = true → (book f bookings nid ts).1 = .missingField) ∧
      (requiredMissing f = false → offGrid f = true →
        (book f bookings nid ts).1 = .invalidTimeGrid) ∧
      (requiredMissing f = false → offGrid f = false →
        pyStrLe (f.end_time.getD "") (f.start_time.getD "") = true →
        (book f bookings nid ts).1 = .endBeforeStart) ∧
      (requiredMissing f = false → offGrid f = false →
        pyStrLe (f.end_time.getD "") (f.start_time.getD "") = false →
        conflictAny f bookings = true →
        (book f bookings nid ts).1 = .slotConflict) := by
  intro f bookings nid ts
  refine ⟨?_, ?_, ?_, ?_⟩ <;> intros <;> simp_all [book]

/-- Witness for C5: a form with an empty requester name, off-grid times
and end before start is rejected as `missingField` — the first check
wins. -/
theorem c5_first_failure_wins_witness :
    (book ⟨some "", some "Room A", some "2025-01-10", some "09:15",
        some "09:00", none, none⟩ [] 1 "t0").1 = .missingField :=
  (c5_first_failure_wins _ [] 1 "t0").1 (by decide)

/-- **C9.** Rejected bookings never partially apply: whenever `/book`
returns anything other than `created`, the active booking list is exactly
what it was; when it returns `created`, the new row is appended and
nothing else changes. -/
theorem c9_no_partial_apply :
    ∀ (f : Form) (bookings : List Booking) (nid : Nat) (ts : String),
      ((book f bookings nid ts).1 ≠ .created →
        (book f bookings nid ts).2 = bookings) ∧
      ((book f bookings nid ts).1 = .created →
        (book f bookings nid ts).2 = bookings ++ [mkBooking f nid ts]) := by
  intro f bookings nid ts
  unfold book
  split_ifs <;> simp

/-- Witness for C9: a conflicting candidate leaves the single existing
booking untouched. -/
theorem c9_no_partial_apply_witness :
    (book ⟨some "Bob", some "Room A", some "2025-01-10", some "10:30",
        some "11:30", none, none⟩
      [⟨1, "Ann", "Room A", "2025-01-10", "10:00", "11:00", none, "", "t0"⟩]
      2 "t1").2 =
      [⟨1, "Ann", "Room A", "2025-01-10", "10:00", "11:00", none, "", "t0"⟩] :=
  (c9_no_partial_apply _ _ 2 "t1").1 (by decide)

/-- **C2 counterexample.** The claim says the admin paths reject every
off-grid candidate with the invalid-time-grid verdict before any write;
but `admin_add` has no grid check at all: a candidate starting 09:15
is accepted and written. -/
theorem c2_admin_offgrid_counterexample :
    adminAdd ⟨some "Alice", some "Room A", some "2025-01-10", some "09:15",
        some "10:15", none, none⟩ [] 1 "t0" =
      (.created,
        [⟨1, "Alice", "Room A", "2025-01-10", "09:15", "10:15", none, "", "t0"⟩]) := by
  decide

/-- **C2 (amended).** `admin_add` applies the `/book` algorithm minus the
grid check — on on-grid candidates it behaves identically to `/book`, and
it still rejects missing required fields first; `admin_edit` omits both
the missing-field and the grid check, and its conflict verdict is decided
exactly by the overlap scan over the other bookings of the same room and
date, its own prior interval excluded. -/
theorem c2_admin_validation_amended :
    (∀ (f : Form) (bookings : List Booking) (nid : Nat) (ts : String),
      ALL_TIMES.contains (f.start_time.getD "") = true →
      ALL_TIMES.contains (f.end_time.getD "") = true →
      adminAdd f bookings nid ts = book f bookings nid ts) ∧
    (∀ (f : Form) (bookings : List Booking) (nid : Nat) (ts : String),
      requiredMissing f = true →
      adminAdd f bookings nid ts = (.missingField, bookings)) ∧
    (∀ (bid : Nat) (f : Form) (bookings : List Booking) (st et : String),
      bookings.any (fun b => b.id == bid) = true →
      f.start_time = some st → f.end_time = some et →
      pyStrLe et st = false →
      ((adminEdit bid f bookings).1 = .slotConflict ↔
        (bookings.filter (fun b => f.date == some b.date &&
            f.room == some b.room && b.id != bid)).any
          (fun r => pyStrLt st r.end_time && pyStrLt r.start_time et) = true)) := by
  refine ⟨?_, ?_, ?_⟩
  · intro f bookings nid ts h1 h2
    unfold adminAdd book
    rw [show offGrid f = false by unfold offGrid; rw [h1, h2]; rfl]
    simp
  · intro f bookings nid ts h
    simp [adminAdd, h]
  · intro bid f bookings st et hmem hs he hle
    cases hc : (bookings.filter (fun b => f.date == some b.date &&
        f.room == some b.room && b.id != bid)).any
        (fun r => pyStrLt st r.end_time && pyStrLt r.start_time et) with
    | true => simp [adminEdit, hmem, hs, he, hle, hc]
    | false =>
      simp only [adminEdit, hmem, Bool.not_true, Bool.false_eq_true,
        if_false, hs, he, hle, hc]
      split <;> simp

/-- Witness for the amended C2: on an on-grid candidate `admin_add` and
`/book` agree exactly. -/
theorem c2_admin_validation_amended_witness :
    adminAdd ⟨some "Cara", some "Room B", some "2025-01-11", some "09:00",
        some "10:00", none, none⟩ [] 3 "t3" =
      book ⟨some "Cara", some "Room B", some "2025-01-11", some "09:00",
        some "10:00", none, none⟩ [] 3 "t3" :=
  c2_admin_validation_amended.1 _ [] 3 "t3" (by decide) (by decide)

/-- **C6 counterexample.** The claim says `t2min` fails on out-of-range
numeric input such as `"25:99"`; in fact the code performs no range
check and returns `25 * 60 + 99 = 1599`. -/
theorem c6_t2min_counterexample : t2min "25:99" = some 1599 := by decide

/-- **C6 (amended).** `t2min` fails exactly when the colon-split of its
input does not yield two numeric fields — whether because the split does
not produce exactly two fields (no colon, two or more colons, the empty
string) or because a field is non-numeric; it performs no range
validation: any numeric hour and minute fields produce `h * 60 + m`,
even out of the 0–23 / 0–59 ranges. -/
theorem c6_t2min_amended :
    ∀ s : String,
      ((splitColon s.data).length ≠ 2 → t2min s = none) ∧
      (∀ a b : List Char, splitColon s.data = [a, b] →
        (pyInt a.asString = none → t2min s = none) ∧
        (pyInt b.asString = none → t2min s = none) ∧
        (∀ h m : Int, pyInt a.asString = some h → pyInt b.asString = some m →
          t2min s = some (h * 60 + m))) := by
  intro s
  constructor
  · intro hlen
    rcases hl : splitColon s.data with _ | ⟨x, xs⟩
    · unfold t2min; rw [hl]
    · rcases xs with _ | ⟨y, ys⟩
      · unfold t2min; rw [hl]
      · rcases ys with _ | ⟨z, zs⟩
        · exact absurd (by rw [hl]; rfl) hlen
        · unfold t2min; rw [hl]
  · intro a b hsplit
    have hkey : t2min s = match pyInt a.asString, pyInt b.asString with
        | some h, some m => some (h * 60 + m)
        | _, _ => none := by
      unfold t2min
      rw [hsplit]
    refine ⟨?_, ?_, ?_⟩
    · intro ha
      rw [hkey, ha]
    · intro hb
      rw [hkey, hb]
      cases pyInt a.asString <;> rfl
    · intro h m ha hb
      rw [hkey, ha, hb]

/-- Witness for the amended C6: a well-formed time parses to its minute
count, and a colon-free input (split arity 1) fails. -/
theorem c6_t2min_amended_witness :
    t2min "07:05" = some (7 * 60 + 5) ∧ t2min "0930" = none :=
  ⟨((c6_t2min_amended "07:05").2 "07".data "05".data (by decide)).2.2 7 5
      (by decide) (by decide),
    (c6_t2min_amended "0930").1 (by decide)⟩

/-! ## Archive sweep lemmas -/

theorem archiveFold_no_expired (now : String × String) (stamp : String) :
    ∀ (l : List Booking) (acc : List Booking × List HistRecord),
      (∀ b ∈ l, endsBefore b now = false) →
      l.foldl (archiveStep now stamp) acc = acc := by
  intro l
  induction l with
  | nil => intro acc _; rfl
  | cons b rest ih =>
    intro acc hall
    rw [List.foldl_cons]
    have hb : endsBefore b now = false := hall b (by simp)
    rw [show archiveStep now stamp acc b = acc from by simp [archiveStep, hb]]
    exact ih acc (fun x hx => hall x (by simp [hx]))

theorem archiveFold_active_not_expired (now : String × String) (stamp : String) :
    ∀ (l : List Booking) (acc : List Booking × List HistRecord) (x : Booking),
      x ∈ (l.foldl (archiveStep now stamp) acc).1 →
      x ∈ acc.1 ∧ ∀ b ∈ l, endsBefore b now = true → x.id ≠ b.id := by
  intro l
  induction l with
  | nil => intro acc x hx; exact ⟨hx, by simp⟩
  | cons b rest ih =>
    intro acc x hx
    rw [List.foldl_cons] at hx
    obtain ⟨hx1, hx2⟩ := ih (archiveStep now stamp acc b) x hx
    cases hb : endsBefore b now with
    | false =>
      rw [show archiveStep now stamp acc b = acc from by simp [archiveStep, hb]] at hx1
      refine ⟨hx1, ?_⟩
      intro b' hb' hexp
      rcases List.mem_cons.mp hb' with rfl | h
      · rw [hb] at hexp; exact absurd hexp (by simp)
      · exact hx2 b' h hexp
    | true =>
      have hstep : (archiveStep now stamp acc b).1 =
          acc.1.filter (fun y => y.id != b.id) := by
        simp [archiveStep, hb]
      rw [hstep] at hx1
      have hmem := List.mem_filter.mp hx1
      refine ⟨hmem.1, ?_⟩
      intro b' hb' hexp
      rcases List.mem_cons.mp hb' with rfl | h
      · simpa using hmem.2
      · exact hx2 b' h hexp

theorem archiveFold_effect (now : String × String) (stamp : String) :
    ∀ (l : List Booking) (a : List Booking) (h : List HistRecord),
      (l.map Booking.id).Nodup →
      (∀ b ∈ l, endsBefore b now = true → ∀ hh ∈ h, hh.id ≠ b.id) →
      l.foldl (archiveStep now stamp) (a, h) =
        (a.filter (fun x => !(l.any (fun b => endsBefore b now && x.id == b.id))),
         h ++ (l.filter (fun b => endsBefore b now)).map (fun b => toHist b stamp)) := by
  intro l
  induction l with
  | nil => intro a h _ _; simp
  | cons b rest ih =>
    intro a h hnd hdisj
    have hnd' : (rest.map Booking.id).Nodup := by
      rw [List.map_cons, List.nodup_cons] at hnd
      exact hnd.2
    have hbid : b.id ∉ rest.map Booking.id := by
      rw [List.map_cons, List.nodup_cons] at hnd
      exact hnd.1
    rw [List.foldl_cons]
    cases hb : endsBefore b now with
    | false =>
      rw [show archiveStep now stamp (a, h) b = (a, h) from by
        simp [archiveStep, hb]]
      rw [ih a h hnd' (fun b' hb' hexp hh hhh => hdisj b' (by simp [hb']) hexp hh hhh)]
      refine Prod.ext ?_ ?_
      · show a.filter _ = a.filter _
        apply List.filter_congr
        intro x _
        simp [hb]
      · show h ++ _ = h ++ _
        rw [List.filter_cons]
        simp [hb]
    | true =>
      have hnotin : h.any (fun hh => hh.id == b.id) = false := by
        rw [List.any_eq_false]
        intro hh hhh
        have := hdisj b (by simp) hb hh hhh
        simp [this]
      have hstep : archiveStep now stamp (a, h) b =
          (a.filter (fun y => y.id != b.id), h ++ [toHist b stamp]) := by
        simp [archiveStep, hb, hnotin]
      rw [hstep]
      have hdisj' : ∀ b' ∈ rest, endsBefore b' now = true →
          ∀ hh ∈ h ++ [toHist b stamp], hh.id ≠ b'.id := by
        intro b' hb' hexp hh hhh
        rcases List.mem_append.mp hhh with hmem | hmem
        · exact hdisj b' (by simp [hb']) hexp hh hmem
        · have hh_eq : hh = toHist b stamp := by simpa using hmem
          subst hh_eq
          show b.id ≠ b'.id
          intro he
          exact hbid (he ▸ List.mem_map_of_mem Booking.id hb')
      rw [ih _ _ hnd' hdisj']
      refine Prod.ext ?_ ?_
      · show List.filter _ (a.filter _) = a.filter _
        rw [List.filter_filter]
        apply List.filter_congr
        intro x _
        simp only [List.any_cons, hb, Bool.true_and, Bool.not_or, bne]
        exact Bool.and_comm _ _
      · show (h ++ [toHist b stamp]) ++ _ = h ++ _
        rw [List.append_assoc, List.filter_cons]
        simp [hb]

/-- **C7.** The archival sweep is idempotent: for a fixed "now", a second
run (with any archive stamp) leaves both the active set and the history
exactly as the first run produced them — no duplicate history rows, no
further deletions. -/
theorem c7_archive_idempotent :
    ∀ (now : String × String) (stamp1 stamp2 : String)
      (st : List Booking × List HistRecord),
      archive_past_bookings now stamp2 (archive_past_bookings now stamp1 st) =
        archive_past_bookings now stamp1 st := by
  intro now stamp1 stamp2 st
  have hno : ∀ b ∈ (archive_past_bookings now stamp1 st).1,
      endsBefore b now = false := by
    intro b hb
    obtain ⟨hb1, hb2⟩ :=
      archiveFold_active_not_expired now stamp1 st.1 st b hb
    cases hcase : endsBefore b now with
    | false => rfl
    | true => exact absurd rfl (hb2 b hb1 hcase)
  show (archive_past_bookings now stamp1 st).1.foldl (archiveStep now stamp2)
        (archive_past_bookings now stamp1 st) = _
  exact archiveFold_no_expired now stamp2 _ _ hno

/-- **C8.** For a fixed "now", the sweep removes from the active set
exactly the bookings whose `(date, end)` instant is strictly before now,
appends each of them to history with every original field unchanged plus
the archive stamp, keeps every unexpired booking unchanged, and leaves
pre-existing history rows untouched.  The two hypotheses are the store's
integrity invariants: active ids are unique (primary key), and an expired
active id is not already present in history. -/
theorem c8_archive_effect :
    ∀ (now : String × String) (stamp : String) (act : List Booking)
      (hist : List HistRecord),
      (act.map Booking.id).Nodup →
      (∀ b ∈ act, endsBefore b now = true → ∀ hh ∈ hist, hh.id ≠ b.id) →
      archive_past_bookings now stamp (act, hist) =
        (act.filter (fun b => !endsBefore b now),
         hist ++ (act.filter (fun b => endsBefore b now)).map
           (fun b => toHist b stamp)) := by
  intro now stamp act hist hnd hdisj
  show act.foldl (archiveStep now stamp) (act, hist) = _
  rw [archiveFold_effect now stamp act act hist hnd hdisj]
  refine Prod.ext ?_ rfl
  show act.filter _ = act.filter _
  apply List.filter_congr
  intro x hx
  congr 1
  cases hex : endsBefore x now with
  | true =>
    rw [List.any_eq_true]
    exact ⟨x, hx, by simp [hex]⟩
  | false =>
    rw [List.any_eq_false]
    intro b hb hcontra
    simp only [Bool.and_eq_true, beq_iff_eq] at hcontra
    obtain ⟨hexp, hid⟩ := hcontra
    have hxb : x = b := List.inj_on_of_nodup_map hnd hx hb hid
    rw [← hxb] at hexp
    simp [hex] at hexp

/-- Witness for C8: with one expired and one future booking and an empty
history, the sweep moves exactly the expired one. -/
theorem c8_archive_effect_witness :
    archive_past_bookings ("2025-01-10", "12:00") "arch"
      ([⟨1, "Ann", "Room A", "2025-01-09", "10:00", "11:00", none, "", "t0"⟩,
        ⟨2, "Bob", "Room A", "2025-01-10", "12:30", "13:00", none, "", "t0"⟩],
       []) =
      ([⟨1, "Ann", "Room A", "2025-01-09", "10:00", "11:00", none, "", "t0"⟩,
        ⟨2, "Bob", "Room A", "2025-01-10", "12:30", "13:00", none, "", "t0"⟩].filter
          (fun b => !endsBefore b ("2025-01-10", "12:00")),
       [] ++ ([⟨1, "Ann", "Room A", "2025-01-09", "10:00", "11:00", none, "", "t0"⟩,
        ⟨2, "Bob", "Room A", "2025-01-10", "12:30", "13:00", none, "", "t0"⟩].filter
          (fun b => endsBefore b ("2025-01-10", "12:00"))).map
          (fun b => toHist b "arch")) :=
  c8_archive_effect ("2025-01-10", "12:00") "arch" _ _ (by decide) (by decide)

/-- **C10 (implicit).** `/api/available_times` does not validate the
selected start against the 30-minute grid: any parseable off-grid start
is accepted (the response is `ok`), the candidate ends are the 30-minute
steps above that start (with no bookings, all of them up to the last one
at or before 17:00), and every returned end is congruent to the start
modulo 30 — hence itself off-grid. -/
theorem c10_offgrid_start_passthrough :
    ∀ (ro da : Option String) (stStr : String) (s_m : Int)
      (booked : List (Int × Int)),
      falsyOpt ro = false → falsyOpt da = false →
      t2min stStr = some s_m → ¬s_m % 30 = 0 →
      api_available_times ro da (some stStr) booked =
        some ⟨true, (startsAvailable booked).map min2t,
          (endsAvailable s_m booked).map min2t⟩ ∧
      (∀ e ∈ endsAvailable s_m booked, e % 30 = s_m % 30) ∧
      endsAvailable s_m [] = pyRange30 (s_m + 30) 1021 := by
  intro ro da stStr s_m booked hro hda hparse hoff
  have hne : (stStr == "") = false := by
    cases hs : stStr == "" with
    | false => rfl
    | true =>
      have hempty : stStr = "" := by simpa using hs
      rw [hempty, show t2min "" = none from rfl] at hparse
      exact Option.noConfusion hparse
  refine ⟨?_, ?_, ?_⟩
  · have hf : falsyOpt (some stStr) = false := hne
    simp [api_available_times, hro, hda, hf, hparse]
  · intro e he
    rw [endsAvailable_eq_filter] at he
    have hmem := List.mem_of_mem_filter he
    obtain ⟨k, rfl⟩ := exists_step_of_mem_pyRange30 hmem
    omega
  · rw [endsAvailable_eq_filter]
    apply List.filter_eq_self.mpr
    intro e he
    have hlt := (mem_pyRange30 he).2
    simp [blockAfterCode]
    omega

/-- Witness for C10: the off-grid start "09:15" (= 555 minutes) is
accepted and the ends stepped from it are returned. -/
theorem c10_offgrid_start_passthrough_witness :
    api_available_times (some "Room A") (some "2025-01-10") (some "09:15") [] =
      some ⟨true, (startsAvailable []).map min2t,
        (endsAvailable 555 []).map min2t⟩ :=
  (c10_offgrid_start_passthrough (some "Room A") (some "2025-01-10") "09:15"
    555 [] (by decide) (by decide) (by decide) (by decide)).1
